import Mathlib

/-!
Verification of the market-data ingestion core of the crypto-auto-trader
repository against its natural-language specification.

The Python sources are shallowly embedded as executable Lean definitions:

* `generateNonce` / `nonceRun`       — `KrakenAuth._generate_nonce` (src/kraken/auth.py)
* `signRequest` / `createSignature`  — `KrakenAuth.sign_request` / `_create_signature`
* `makeRequest`                      — `KrakenRESTClient._make_request`
  (src/modules/data_ingestion/rest_client.py)
* `connectWithRetry`                 — `KrakenWebSocketClient._connect_with_retry`
  (src/modules/data_ingestion/websocket_client.py)
* `loadSymbol`, `processLiveCandle`, `websocketCallback` — `DataStream`
  (src/utils/data_stream.py)
* `buildSymbolMap` / `findPair`      — `SymbolManager` (src/utils/symbol_manager.py)

External collaborators (the HTTP transport, the hash primitives from
`hashlib`/`hmac`, the exchange catalog, the wall clock) appear as explicit
function or value parameters, so every behaviour of the repository code
itself is computed by the embedding.
-/

namespace CryptoAutoTrader

/-! ## KrakenAuth nonce generation (src/kraken/auth.py, `_generate_nonce`) -/

/-- One call of `KrakenAuth._generate_nonce`.  `clock` is the value of
`int(time.time() * 1_000_000)` observed during the call and `last` is the
stored `_last_nonce`.  Returns the nonce handed back to the caller together
with the new value stored into `_last_nonce`. -/
def generateNonce (clock last : Nat) : Nat × Nat :=
  let nonce := clock
  let nonce := if nonce ≤ last then last + 1 else nonce
  (nonce, nonce)

/-- A sequence of `_generate_nonce` calls on one `KrakenAuth` instance.
`clocks` lists the microsecond-clock reading observed by each successive
call; the result lists the returned nonces in call order. -/
def nonceRun (last : Nat) : List Nat → List Nat
  | [] => []
  | c :: cs => (generateNonce c last).1 :: nonceRun (generateNonce c last).2 cs

theorem generateNonce_lt (c l : Nat) : l < (generateNonce c l).1 := by
  unfold generateNonce
  dsimp only
  split <;> omega

theorem generateNonce_stores_returned (c l : Nat) :
    (generateNonce c l).2 = (generateNonce c l).1 := rfl

theorem nonceRun_chain (cs : List Nat) :
    ∀ last : Nat, List.Chain (· < ·) last (nonceRun last cs) := by
  induction cs with
  | nil => intro last; exact List.Chain.nil
  | cons c cs ih =>
      intro last
      exact List.Chain.cons (generateNonce_lt c last) (ih (generateNonce c last).2)

/-- C1: for every sequence of two or more `sign_request` calls on the same
`KrakenAuth` instance the returned nonces are strictly increasing — for every
pair of calls, not just adjacent ones — even when the microsecond clock
repeats a value or moves backwards between calls; and the stored `_last_nonce`
counter is updated to the returned nonce on every call. -/
theorem nonces_strictly_increasing :
    (∀ (clocks : List Nat) (last : Nat),
        (nonceRun last clocks).Pairwise (· < ·)) ∧
    (∀ (clock last : Nat),
        (generateNonce clock last).2 = (generateNonce clock last).1 ∧
        last < (generateNonce clock last).1) := by
  refine ⟨fun clocks last => ?_, fun clock last => ⟨rfl, generateNonce_lt clock last⟩⟩
  exact (List.chain_iff_pairwise.mp (nonceRun_chain clocks last)).of_cons

/-! ## KrakenRESTClient `_make_request`
(src/modules/data_ingestion/rest_client.py, lines 69–125) -/

/-- What one HTTP attempt looks like to `_make_request`:
either `requests` raises a `RequestException` (`transportFailure`),
or a response arrives whose body is not JSON (`notJson`),
or a JSON body arrives carrying an `error` list and an optional `result`
field (`payload`). -/
inductive AttemptOutcome (α : Type) where
  | transportFailure (msg : String)
  | notJson
  | payload (errors : List String) (result : Option α)
deriving DecidableEq

/-- The exceptions `_make_request` can raise, keyed by their f-string
messages: `"Network error after N attempts"`, `"Invalid JSON response"`,
`"Kraken API error: ..."`, `"Missing result field"`. -/
inductive ReqError where
  | networkError (attempts : Nat) (msg : String)
  | invalidJson
  | exchangeError (messages : List String)
  | missingResult
deriving DecidableEq

/-- Observable trace of one `_make_request` call: the returned value or
raised error, the list of `time.sleep` durations (seconds) in order, and the
number of HTTP attempts performed. -/
structure ReqTrace (α : Type) where
  outcome : Except ReqError α
  sleeps : List Nat
  attempts : Nat

/-- Body of the `for attempt in range(self.max_retries + 1)` loop of
`_make_request`, starting at attempt index `attempt`.  A transport failure at
`attempt == max_retries` raises the terminal network error; an earlier one
sleeps `2 ** attempt` seconds and retries.  A body that is not JSON, carries a
non-empty error list, or lacks the `result` field raises immediately (the
inner `raise` is re-raised by the final `except Exception` clause). -/
def makeRequestFrom {α : Type} (transport : Nat → AttemptOutcome α)
    (maxRetries attempt : Nat) : ReqTrace α :=
  match transport attempt with
  | .transportFailure msg =>
      if h : maxRetries ≤ attempt then
        ⟨.error (.networkError (maxRetries + 1) msg), [], 1⟩
      else
        let rest := makeRequestFrom transport maxRetries (attempt + 1)
        ⟨rest.outcome, 2 ^ attempt :: rest.sleeps, rest.attempts + 1⟩
  | .notJson => ⟨.error .invalidJson, [], 1⟩
  | .payload errors result =>
      match errors with
      | e :: es => ⟨.error (.exchangeError (e :: es)), [], 1⟩
      | [] =>
          match result with
          | none => ⟨.error .missingResult, [], 1⟩
          | some r => ⟨.ok r, [], 1⟩
termination_by maxRetries + 1 - attempt
decreasing_by omega

/-- `KrakenRESTClient._make_request` with the HTTP transport abstracted as a
function from attempt index to outcome. -/
def makeRequest {α : Type} (transport : Nat → AttemptOutcome α)
    (maxRetries : Nat) : ReqTrace α :=
  makeRequestFrom transport maxRetries 0

/-- C3: with `max_retries = 3`, a transport failing on exactly the first
three attempts and answering a valid body on the fourth makes `_make_request`
return that result after 4 attempts, sleeping 2^0, 2^1, 2^2 seconds before
the retries; a transport that always fails makes it raise the network error
after exactly 4 attempts (1 initial + 3 retries) with the same backoff. -/
theorem retry_policy_max_retries_three {α : Type}
    (t₁ t₂ : Nat → AttemptOutcome α) (r : α) (m₁ m₂ : Nat → String)
    (h₁ : ∀ i < 3, t₁ i = .transportFailure (m₁ i))
    (h₂ : t₁ 3 = .payload [] (some r))
    (h₃ : ∀ i, t₂ i = .transportFailure (m₂ i)) :
    makeRequest t₁ 3 = ⟨.ok r, [1, 2, 4], 4⟩ ∧
    makeRequest t₂ 3 = ⟨.error (.networkError 4 (m₂ 3)), [1, 2, 4], 4⟩ := by
  constructor
  · show makeRequestFrom t₁ 3 0 = _
    rw [makeRequestFrom, h₁ 0 (by omega)]
    rw [makeRequestFrom, h₁ 1 (by omega)]
    rw [makeRequestFrom, h₁ 2 (by omega)]
    rw [makeRequestFrom, h₂]
    simp
  · show makeRequestFrom t₂ 3 0 = _
    rw [makeRequestFrom, h₃ 0]
    rw [makeRequestFrom, h₃ 1]
    rw [makeRequestFrom, h₃ 2]
    rw [makeRequestFrom, h₃ 3]
    simp

/-- Transport that fails on the first three attempts and then succeeds. -/
def failThriceTransport : Nat → AttemptOutcome Nat :=
  fun i => if i < 3 then .transportFailure "connection reset" else .payload [] (some 7)

/-- Transport that fails on every attempt. -/
def alwaysFailTransport : Nat → AttemptOutcome Nat :=
  fun _ => .transportFailure "connection reset"

theorem retry_policy_max_retries_three_witness :
    makeRequest failThriceTransport 3 = ⟨.ok 7, [1, 2, 4], 4⟩ ∧
    makeRequest alwaysFailTransport 3 =
      ⟨.error (.networkError 4 "connection reset"), [1, 2, 4], 4⟩ :=
  retry_policy_max_retries_three failThriceTransport alwaysFailTransport 7
    (fun _ => "connection reset") (fun _ => "connection reset")
    (by decide) (by decide) (fun _ => rfl)

/-- C4: for every `max_retries`, a body with a non-empty exchange error list,
a non-JSON body, and a body missing the `result` envelope each make
`_make_request` raise on the very first attempt, with no sleep and no retry;
and whenever more than one attempt happens, the first attempt was a
network-transport failure — only transport failures are ever retried. -/
theorem terminal_errors_never_retried {α : Type} (maxRetries : Nat)
    (t₁ t₂ t₃ : Nat → AttemptOutcome α) (e : String) (es : List String)
    (ores : Option α)
    (h₁ : t₁ 0 = .payload (e :: es) ores)
    (h₂ : t₂ 0 = .notJson)
    (h₃ : t₃ 0 = .payload [] none) :
    makeRequest t₁ maxRetries = ⟨.error (.exchangeError (e :: es)), [], 1⟩ ∧
    makeRequest t₂ maxRetries = ⟨.error .invalidJson, [], 1⟩ ∧
    makeRequest t₃ maxRetries = ⟨.error .missingResult, [], 1⟩ ∧
    ∀ t : Nat → AttemptOutcome α, 1 < (makeRequest t maxRetries).attempts →
      ∃ m, t 0 = .transportFailure m := by
  refine ⟨?_, ?_, ?_, ?_⟩
  · show makeRequestFrom t₁ maxRetries 0 = _
    rw [makeRequestFrom, h₁]
  · show makeRequestFrom t₂ maxRetries 0 = _
    rw [makeRequestFrom, h₂]
  · show makeRequestFrom t₃ maxRetries 0 = _
    rw [makeRequestFrom, h₃]
  · intro t ht
    show ∃ m, t 0 = .transportFailure m
    by_contra hno
    push_neg at hno
    unfold makeRequest makeRequestFrom at ht
    cases hmatch : t 0 with
    | transportFailure m => exact absurd hmatch (hno m)
    | notJson => rw [hmatch] at ht; simp at ht
    | payload errors result =>
        rw [hmatch] at ht
        cases errors with
        | nil =>
            cases result with
            | none => simp at ht
            | some r => simp at ht
        | cons e' es' => simp at ht

/-- Transport whose first body carries a Kraken error list. -/
def exchangeErrorTransport : Nat → AttemptOutcome Nat :=
  fun _ => .payload ["EGeneral:Invalid arguments"] none

/-- Transport whose first body is not valid JSON. -/
def notJsonTransport : Nat → AttemptOutcome Nat :=
  fun _ => .notJson

/-- Transport whose first body parses but has no `result` field. -/
def missingResultTransport : Nat → AttemptOutcome Nat :=
  fun _ => .payload [] none

theorem terminal_errors_never_retried_witness :
    makeRequest exchangeErrorTransport 1000 =
      ⟨.error (.exchangeError ["EGeneral:Invalid arguments"]), [], 1⟩ ∧
    makeRequest notJsonTransport 1000 = ⟨.error .invalidJson, [], 1⟩ ∧
    makeRequest missingResultTransport 1000 = ⟨.error .missingResult, [], 1⟩ := by
  have h := terminal_errors_never_retried 1000 exchangeErrorTransport
    notJsonTransport missingResultTransport "EGeneral:Invalid arguments" [] none
    rfl rfl rfl
  exact ⟨h.1, h.2.1, h.2.2.1⟩

/-! ## KrakenAuth request signing (src/kraken/auth.py, `sign_request` /
`_create_signature`)

Bytes are modelled as `Nat` values below 256.  The hash primitives
(`hashlib.sha256`, `hmac`/`hashlib.sha512`) live outside the repository and
are passed as function parameters; the encoding steps performed by the
repository's own call chain (`str` concatenation, `urllib.parse.urlencode`,
UTF-8 encoding, `base64.b64encode`) are implemented concretely. -/

/-- UTF-8 encoding of one character (the bytes `.encode('utf-8')` produces
for it). -/
def utf8Char (c : Char) : List Nat :=
  let n := c.toNat
  if n < 128 then [n]
  else if n < 2048 then [192 + n / 64, 128 + n % 64]
  else if n < 65536 then [224 + n / 4096, 128 + n / 64 % 64, 128 + n % 64]
  else [240 + n / 262144, 128 + n / 4096 % 64, 128 + n / 64 % 64, 128 + n % 64]

/-- UTF-8 encoding of a string, as `s.encode('utf-8')`. -/
def utf8 (s : String) : List Nat :=
  s.data.foldr (fun c acc => utf8Char c ++ acc) []

/-- Characters `urllib.parse.quote_plus` leaves unescaped: ASCII letters and
digits plus `_`, `.`, `-`, `~`. -/
def isUrlSafe (c : Char) : Bool :=
  c.isAlphanum || c = '_' || c = '.' || c = '-' || c = '~'

/-- Upper-case hexadecimal digit for a value below 16. -/
def hexDigit (n : Nat) : Char :=
  if n < 10 then Char.ofNat ('0'.toNat + n) else Char.ofNat ('A'.toNat + n - 10)

/-- Percent-encoding of one byte. -/
def percentByte (b : Nat) : List Char :=
  ['%', hexDigit (b / 16 % 16), hexDigit (b % 16)]

/-- How `urllib.parse.quote_plus` renders one character: safe characters pass
through, a space becomes `+`, everything else is percent-encoded bytewise. -/
def quotePlusChar (c : Char) : List Char :=
  if isUrlSafe c then [c]
  else if c = ' ' then ['+']
  else (utf8Char c).foldr (fun b acc => percentByte b ++ acc) []

/-- The `urllib.parse.quote_plus` encoder used by `urlencode`. -/
def quotePlus (s : String) : String :=
  ⟨s.data.foldr (fun c acc => quotePlusChar c ++ acc) []⟩

/-- The `urllib.parse.urlencode` call of `_create_signature`, over the POST
dict rendered as an insertion-ordered association list of string fields. -/
def urlencode (ps : List (String × String)) : String :=
  String.intercalate "&" (ps.map (fun kv => quotePlus kv.1 ++ "=" ++ quotePlus kv.2))

/-- Base64 alphabet. -/
def b64Alphabet : List Char :=
  "ABCDEFGHIJKLMNOPQRSTUVWXYZabcdefghijklmnopqrstuvwxyz0123456789+/".data

/-- Base64 digit for a value below 64. -/
def b64Digit (n : Nat) : Char := b64Alphabet.getD n 'A'

/-- Base64 rendering of a byte list, three bytes to four digits, padded
with `=`. -/
def b64Chunks : List Nat → List Char
  | b₁ :: b₂ :: b₃ :: rest =>
      let n := b₁ % 256 * 65536 + b₂ % 256 * 256 + b₃ % 256
      b64Digit (n / 262144) :: b64Digit (n / 4096 % 64) ::
        b64Digit (n / 64 % 64) :: b64Digit (n % 64) :: b64Chunks rest
  | [b₁, b₂] =>
      let n := b₁ % 256 * 65536 + b₂ % 256 * 256
      [b64Digit (n / 262144), b64Digit (n / 4096 % 64), b64Digit (n / 64 % 64), '=']
  | [b₁] =>
      let n := b₁ % 256 * 65536
      [b64Digit (n / 262144), b64Digit (n / 4096 % 64), '=', '=']
  | [] => []

/-- The `base64.b64encode(...).decode('utf-8')` step. -/
def b64encode (bs : List Nat) : String := ⟨b64Chunks bs⟩

/-- Python dict assignment `data[k] = v` on an insertion-ordered association
list: replaces the value of an existing key in place, otherwise appends. -/
def dictSet {α β : Type} [BEq α] (l : List (α × β)) (k : α) (v : β) :
    List (α × β) :=
  match l with
  | [] => [(k, v)]
  | (k', v') :: rest => if k' == k then (k, v) :: rest else (k', v') :: dictSet rest k v

theorem dictSet_lookup {α β : Type} [BEq α] [LawfulBEq α]
    (l : List (α × β)) (k : α) (v : β) :
    (dictSet l k v).lookup k = some v := by
  induction l with
  | nil => simp [dictSet]
  | cons hd tl ih =>
      obtain ⟨k', v'⟩ := hd
      by_cases h : k' = k
      · simp [dictSet, h, List.lookup]
      · have hbeq : (k == k') = false := by
          refine beq_eq_false_iff_ne.mpr ?_
          exact fun hk => h hk.symm
        have hbeq' : (k' == k) = false := beq_eq_false_iff_ne.mpr h
        simp only [dictSet, hbeq', Bool.false_eq_true, if_false, List.lookup, hbeq]
        exact ih

theorem dictSet_lookup_ne {α β : Type} [BEq α] [LawfulBEq α]
    (l : List (α × β)) (k k' : α) (v : β) (hne : k' ≠ k) :
    (dictSet l k v).lookup k' = l.lookup k' := by
  have hbeq : (k' == k) = false := beq_eq_false_iff_ne.mpr hne
  induction l with
  | nil => simp [dictSet, List.lookup, hbeq]
  | cons hd tl ih =>
      obtain ⟨k₀, v₀⟩ := hd
      by_cases h : k₀ = k
      · subst h
        simp only [dictSet, beq_self_eq_true, if_true, List.lookup, hbeq]
      · have hbeq₀ : (k₀ == k) = false := beq_eq_false_iff_ne.mpr h
        simp only [dictSet, hbeq₀, Bool.false_eq_true, if_false, List.lookup]
        cases hkk : k' == k₀ with
        | true => rfl
        | false => exact ih

/-- `KrakenAuth._create_signature` (src/kraken/auth.py, lines 105–147) with
the two `hashlib` primitives as parameters: reads `str(data["nonce"])`,
URL-encodes the POST data, hashes `nonce + post_data`, prepends the UTF-8
path bytes, signs with HMAC-SHA512 under the decoded secret, and Base64
encodes the result. -/
def createSignature (sha256 : List Nat → List Nat)
    (hmacSha512 : List Nat → List Nat → List Nat) (apiSecret : List Nat)
    (urlPath : String) (data : List (String × String)) : String :=
  let nonce := (data.lookup "nonce").getD ""
  let postData := urlencode data
  let message := utf8 (nonce ++ postData)
  let sha256Hash := sha256 message
  let pathBytes := utf8 urlPath
  let hmacData := pathBytes ++ sha256Hash
  b64encode (hmacSha512 apiSecret hmacData)

/-- `KrakenAuth.sign_request` (src/kraken/auth.py, lines 45–83) after the
nonce has been generated: rejects an empty path, stores the nonce into the
POST dict, and returns the `API-Key` and `API-Sign` header values. -/
def signRequest (sha256 : List Nat → List Nat)
    (hmacSha512 : List Nat → List Nat → List Nat) (apiKey : String)
    (apiSecret : List Nat) (urlPath : String) (data : List (String × String))
    (nonce : String) : Except String (String × String) :=
  if urlPath = "" then .error "URL path cannot be empty"
  else .ok (apiKey,
    createSignature sha256 hmacSha512 apiSecret urlPath (dictSet data "nonce" nonce))

/-- Modelled from the spec's algorithm line, for comparison with the source
translation: `signature = Base64(HMAC-SHA512(secretBytes, UTF8(path) ‖
SHA256(UTF8(nonce + urlEncode(params)))))` where `params` include the nonce
field. -/
def specSignature (sha256 : List Nat → List Nat)
    (hmacSha512 : List Nat → List Nat → List Nat) (secretBytes : List Nat)
    (path : String) (params : List (String × String)) (nonce : String) : String :=
  b64encode (hmacSha512 secretBytes (utf8 path ++ sha256 (utf8 (nonce ++ urlencode params))))

/-- C2: for every non-empty path, every params dict and every fixed nonce,
the `API-Sign` header produced by `sign_request` is exactly
`Base64(HMAC-SHA512(decodedSecret, UTF8(path) ‖ SHA256(UTF8(nonce +
urlEncode(params)))))` with the nonce field stored in the params; and the
signer is deterministic — identical path, params (nonce included) and secret
give identical headers. -/
theorem sign_request_matches_spec_formula (sha256 : List Nat → List Nat)
    (hmacSha512 : List Nat → List Nat → List Nat) (apiKey : String)
    (apiSecret : List Nat) (urlPath : String) (data : List (String × String))
    (nonce : String) (hpath : urlPath ≠ "") :
    signRequest sha256 hmacSha512 apiKey apiSecret urlPath data nonce =
      .ok (apiKey, specSignature sha256 hmacSha512 apiSecret urlPath
        (dictSet data "nonce" nonce) nonce) ∧
    createSignature sha256 hmacSha512 apiSecret urlPath (dictSet data "nonce" nonce) =
      createSignature sha256 hmacSha512 apiSecret urlPath (dictSet data "nonce" nonce) := by
  refine ⟨?_, rfl⟩
  simp only [signRequest, if_neg hpath]
  unfold createSignature specSignature
  rw [dictSet_lookup]
  rfl

theorem sign_request_matches_spec_formula_witness :
    signRequest (fun l => l) (fun k m => k ++ m) "test-key" [1, 2, 3]
        "/0/private/Balance" [("pair", "XXBTZUSD")] "1616492376594" =
      .ok ("test-key", specSignature (fun l => l) (fun k m => k ++ m) [1, 2, 3]
        "/0/private/Balance"
        (dictSet [("pair", "XXBTZUSD")] "nonce" "1616492376594") "1616492376594") :=
  (sign_request_matches_spec_formula (fun l => l) (fun k m => k ++ m) "test-key"
    [1, 2, 3] "/0/private/Balance" [("pair", "XXBTZUSD")] "1616492376594"
    (by decide)).1

/-! ## KrakenWebSocketClient `_connect_with_retry`
(src/modules/data_ingestion/websocket_client.py, lines 128–153) -/

/-- How the reconnect loop of `_connect_with_retry` ends: the `while` guard
saw `stop_event` set, or `retry_count` reached `max_retries` and the loop
logged "Max retries exceeded. Giving up." and broke out. -/
inductive RetryEnd where
  | stopped
  | gaveUp
deriving DecidableEq

/-- Observable trace of the reconnect loop: how many `_connect` attempts were
made, the `asyncio.sleep` backoff durations (seconds) between them in order,
and how the loop ended. -/
structure RetryTrace where
  attempts : Nat
  sleeps : List Nat
  ending : RetryEnd
deriving DecidableEq

/-- The `while not self.stop_event.is_set() and retry_count < max_retries`
loop of `_connect_with_retry` (with `max_retries = 5`), under the premise of
claim C5 that every `await self._connect()` call raises.  `stop i` is the
value of `stop_event.is_set()` at the i-th evaluation of the loop guard.
Each failed attempt increments `retry_count` and backs off
`min(2 ** retry_count, 30)` seconds, except that reaching `retry_count = 5`
gives up instead of sleeping. -/
def connectRetryFrom (stop : Nat → Bool) (i retryCount : Nat) : RetryTrace :=
  if stop i ∨ 5 ≤ retryCount then ⟨0, [], .stopped⟩
  else
    let retryCount' := retryCount + 1
    let wait := min (2 ^ retryCount') 30
    if h : retryCount' < 5 then
      let rest := connectRetryFrom stop (i + 1) retryCount'
      ⟨rest.attempts + 1, wait :: rest.sleeps, rest.ending⟩
    else ⟨1, [], .gaveUp⟩
termination_by 5 - retryCount
decreasing_by omega

/-- `_connect_with_retry` started fresh (retry counter 0), under the premise
that every connection attempt raises. -/
def connectWithRetry (stop : Nat → Bool) : RetryTrace :=
  connectRetryFrom stop 0 0

theorem connectRetryFrom_attempts_le (stop : Nat → Bool) :
    ∀ (d retryCount i j : Nat), 5 - retryCount ≤ d → i ≤ j → stop j = true →
      (connectRetryFrom stop i retryCount).attempts ≤ j - i := by
  intro d
  induction d with
  | zero =>
      intro rc i j hd _ _
      rw [connectRetryFrom]
      have : 5 ≤ rc := by omega
      simp [this]
  | succ d ih =>
      intro rc i j hd hij hstop
      rw [connectRetryFrom]
      by_cases hs : stop i = true
      · simp [hs]
      · have hij' : i < j := by
          rcases Nat.lt_or_ge i j with h | h
          · exact h
          · have : i = j := by omega
            rw [this] at hs; exact absurd hstop hs
        by_cases hrc : 5 ≤ rc
        · simp [hs, hrc]
        · simp only [hs, hrc, or_self, if_false, Bool.false_eq_true, false_or]
          split
          · have := ih (rc + 1) (i + 1) j (by omega) (by omega) hstop
            simp only [RetryTrace.attempts]
            omega
          · simp only [RetryTrace.attempts]
            omega

/-- C5: when every connection attempt raises a transport failure, the stream
client makes exactly 5 connect attempts with backoffs
`min(2 ** k, 30)` = 2, 4, 8, 16 seconds between them — non-decreasing and
capped at 30 — then reaches the terminal gave-up state and never makes a
6th attempt; and a stop signal seen at guard check `j` bounds the number of
attempts by `j`, so it prevents any further attempts. -/
theorem reconnect_gives_up_after_five (stop : Nat → Bool) :
    ((∀ i, stop i = false) →
      connectWithRetry stop = ⟨5, [2, 4, 8, 16], .gaveUp⟩ ∧
      (connectWithRetry stop).sleeps.Chain' (· ≤ ·) ∧
      ∀ w ∈ (connectWithRetry stop).sleeps, w ≤ 30) ∧
    ∀ j, stop j = true → (connectWithRetry stop).attempts ≤ j := by
  constructor
  · intro hns
    have htrace : connectWithRetry stop = ⟨5, [2, 4, 8, 16], .gaveUp⟩ := by
      show connectRetryFrom stop 0 0 = _
      rw [connectRetryFrom]; simp only [hns 0]
      rw [connectRetryFrom]; simp only [hns 1]
      rw [connectRetryFrom]; simp only [hns 2]
      rw [connectRetryFrom]; simp only [hns 3]
      rw [connectRetryFrom]; simp only [hns 4]
      norm_num
    refine ⟨htrace, ?_, ?_⟩
    · rw [htrace]
      simp only [RetryTrace.sleeps]
      refine List.chain'_cons.mpr ⟨by norm_num, ?_⟩
      refine List.chain'_cons.mpr ⟨by norm_num, ?_⟩
      refine List.chain'_cons.mpr ⟨by norm_num, ?_⟩
      exact List.chain'_singleton 16
    · rw [htrace]
      intro w hw
      simp only [RetryTrace.sleeps] at hw
      fin_cases hw <;> norm_num
  · intro j hj
    have h := connectRetryFrom_attempts_le stop 5 0 0 j (by omega) (by omega) hj
    simpa [connectWithRetry] using h

theorem reconnect_gives_up_after_five_witness :
    connectWithRetry (fun _ => false) = ⟨5, [2, 4, 8, 16], .gaveUp⟩ ∧
    (connectWithRetry (fun _ => true)).attempts ≤ 0 :=
  ⟨((reconnect_gives_up_after_five (fun _ => false)).1 (fun _ => rfl)).1,
    (reconnect_gives_up_after_five (fun _ => true)).2 0 rfl⟩

/-! ## SymbolManager (src/utils/symbol_manager.py) -/

/-- One entry of the exchange's tradable-pair catalog as consumed by
`_build_symbol_map`: the pair name (dict key) and the `base`, `quote` and
`wsname` fields of its info dict. -/
structure CatalogEntry where
  pairName : String
  base : String
  quote : String
  wsname : String
deriving DecidableEq

/-- The pair-info dict stored by `_build_symbol_map` under a `BASE/QUOTE`
key. -/
structure PairMapping where
  krakenPair : String
  websocketPair : Option String
  base : String
  quote : String
  krakenBase : String
  krakenQuote : String
deriving DecidableEq

/-- Python's `str.upper()` (for the ASCII asset codes involved here),
character by character. -/
def strUpper (s : String) : String := ⟨s.data.map Char.toUpper⟩

/-- Base-asset normalization of `_build_symbol_map`: `XXBT`/`XBT` become
`BTC`; otherwise a leading `X` or `Z` class letter on a longer code is
stripped (`base[1:]`). -/
def normalizeBase (b : String) : String :=
  let base := strUpper b
  if base = "XXBT" ∨ base = "XBT" then "BTC"
  else if base.data.head? = some 'X' ∧ 1 < base.data.length then ⟨base.data.drop 1⟩
  else if base.data.head? = some 'Z' ∧ 1 < base.data.length then ⟨base.data.drop 1⟩
  else base

/-- Quote normalization of `_build_symbol_map`: only `ZUSD`, `ZEUR`, `ZGBP`
are rewritten. -/
def normalizeQuote (q : String) : String :=
  let quote := strUpper q
  if quote = "ZUSD" then "USD"
  else if quote = "ZEUR" then "EUR"
  else if quote = "ZGBP" then "GBP"
  else quote

/-- Processing of one catalog entry by `_build_symbol_map`: first entry for a
`BASE/QUOTE` key wins, later ones are dropped. -/
def symbolMapStep (m : List (String × PairMapping)) (e : CatalogEntry) :
    List (String × PairMapping) :=
  let userSymbol := normalizeBase e.base
  let quoteSymbol := normalizeQuote e.quote
  let pairKey := userSymbol ++ "/" ++ quoteSymbol
  if (m.lookup pairKey).isSome then m
  else m ++ [(pairKey,
    { krakenPair := e.pairName
      websocketPair :=
        if e.wsname = "" then none else some (e.wsname.replace "XBT/" "BTC/")
      base := userSymbol
      quote := quoteSymbol
      krakenBase := strUpper e.base
      krakenQuote := strUpper e.quote })]

/-- `SymbolManager._build_symbol_map` over the catalog returned by
`get_tradeable_pairs`, in dict iteration (insertion) order. -/
def buildSymbolMap (catalog : List CatalogEntry) : List (String × PairMapping) :=
  catalog.foldl symbolMapStep []

/-- The fixed alternative-quote fallback order of `find_pair`. -/
def altQuotes : List String := ["USDT", "EUR", "GBP", "USDC"]

/-- The `for alt_quote in [...]` loop of `find_pair`. -/
def tryAltQuotes (m : List (String × PairMapping)) (u : String) :
    List String → Option PairMapping
  | [] => none
  | q :: qs =>
      match m.lookup (u ++ "/" ++ q) with
      | some info => some info
      | none => tryAltQuotes m u qs

/-- `SymbolManager.find_pair`: exact `SYMBOL/QUOTE` match first, then the
fixed alternative quotes, else `None`. -/
def findPair (catalog : List CatalogEntry) (userSymbol quote : String) :
    Option PairMapping :=
  let m := buildSymbolMap catalog
  let u := strUpper userSymbol
  let q := strUpper quote
  match m.lookup (u ++ "/" ++ q) with
  | some info => some info
  | none => tryAltQuotes m u altQuotes

theorem lookup_mem {β : Type} (l : List (String × β)) (k : String) (v : β)
    (h : l.lookup k = some v) : (k, v) ∈ l := by
  induction l with
  | nil => simp [List.lookup] at h
  | cons hd tl ih =>
      obtain ⟨k', v'⟩ := hd
      by_cases hk : k = k'
      · simp only [List.lookup, hk, beq_self_eq_true, Option.some.injEq] at h
        subst hk; subst h
        exact List.mem_cons_self _ _
      · have hbeq : (k == k') = false := beq_eq_false_iff_ne.mpr hk
        simp only [List.lookup, hbeq] at h
        exact List.mem_cons_of_mem _ (ih h)

theorem lookup_append_of_isSome {β : Type} (l₁ l₂ : List (String × β))
    (k : String) (h : (l₁.lookup k).isSome) :
    (l₁ ++ l₂).lookup k = l₁.lookup k := by
  induction l₁ with
  | nil => simp [List.lookup] at h
  | cons hd tl ih =>
      obtain ⟨k', v'⟩ := hd
      cases hk : (k == k') with
      | true => simp [List.lookup, hk]
      | false =>
          simp only [List.lookup, hk] at h
          simp only [List.cons_append, List.lookup, hk]
          exact ih h

theorem lookup_append_of_none {β : Type} (l₁ l₂ : List (String × β))
    (k : String) (h : l₁.lookup k = none) :
    (l₁ ++ l₂).lookup k = l₂.lookup k := by
  induction l₁ with
  | nil => simp
  | cons hd tl ih =>
      obtain ⟨k', v'⟩ := hd
      cases hk : (k == k') with
      | true => simp [List.lookup, hk] at h
      | false =>
          simp only [List.lookup, hk] at h
          simp only [List.cons_append, List.lookup, hk]
          exact ih h

/-- Keys already present in the accumulator survive `_build_symbol_map`. -/
theorem foldl_symbolMapStep_keeps (es : List CatalogEntry) :
    ∀ (m : List (String × PairMapping)) (k : String),
      (m.lookup k).isSome → ((es.foldl symbolMapStep m).lookup k).isSome := by
  induction es with
  | nil => intro m k h; exact h
  | cons e es ih =>
      intro m k h
      refine ih (symbolMapStep m e) k ?_
      unfold symbolMapStep
      dsimp only
      split
      · exact h
      · rw [lookup_append_of_isSome _ _ _ h]; exact h

/-- Every catalog entry's normalized key ends up present in the map. -/
theorem buildSymbolMap_key_present (es : List CatalogEntry) :
    ∀ (m : List (String × PairMapping)) (e : CatalogEntry), e ∈ es →
      ((es.foldl symbolMapStep m).lookup
        (normalizeBase e.base ++ "/" ++ normalizeQuote e.quote)).isSome := by
  induction es with
  | nil => intro m e h; simp at h
  | cons e₀ es ih =>
      intro m e h
      rcases List.mem_cons.mp h with h | h
      · subst h
        refine foldl_symbolMapStep_keeps es (symbolMapStep m e) _ ?_
        unfold symbolMapStep
        dsimp only
        split
        · assumption
        · rename_i hnone
          rw [lookup_append_of_none]
          · simp [List.lookup]
          · exact Option.not_isSome_iff_eq_none.mp (by simpa using hnone)
      · exact ih (symbolMapStep m e₀) e h

/-- Every map entry's key is its stored `base` and `quote` joined by `/`. -/
theorem buildSymbolMap_key_shape (es : List CatalogEntry) :
    ∀ (m : List (String × PairMapping)),
      (∀ kv ∈ m, kv.1 = kv.2.base ++ "/" ++ kv.2.quote) →
      ∀ kv ∈ es.foldl symbolMapStep m, kv.1 = kv.2.base ++ "/" ++ kv.2.quote := by
  induction es with
  | nil => intro m hm; exact hm
  | cons e es ih =>
      intro m hm
      refine ih (symbolMapStep m e) ?_
      intro kv hkv
      unfold symbolMapStep at hkv
      dsimp only at hkv
      split at hkv
      · exact hm kv hkv
      · rcases List.mem_append.mp hkv with h | h
        · exact hm kv h
        · simp only [List.mem_singleton] at h
          subst h
          rfl

theorem tryAltQuotes_sound (m : List (String × PairMapping)) (u : String) :
    ∀ (qs : List String) (info : PairMapping), tryAltQuotes m u qs = some info →
      ∃ q ∈ qs, m.lookup (u ++ "/" ++ q) = some info := by
  intro qs
  induction qs with
  | nil => intro info h; simp [tryAltQuotes] at h
  | cons q qs ih =>
      intro info h
      unfold tryAltQuotes at h
      cases hl : m.lookup (u ++ "/" ++ q) with
      | some info' =>
          rw [hl] at h
          exact ⟨q, List.mem_cons_self _ _, by rw [hl, ← h]⟩
      | none =>
          rw [hl] at h
          obtain ⟨q', hq', hlook⟩ := ih info h
          exact ⟨q', List.mem_cons_of_mem _ hq', hlook⟩

theorem tryAltQuotes_isSome (m : List (String × PairMapping)) (u : String) :
    ∀ (qs : List String) (q : String), q ∈ qs →
      (m.lookup (u ++ "/" ++ q)).isSome → (tryAltQuotes m u qs).isSome := by
  intro qs
  induction qs with
  | nil => intro q h; simp at h
  | cons q₀ qs ih =>
      intro q hq hsome
      unfold tryAltQuotes
      cases hl : m.lookup (u ++ "/" ++ q₀) with
      | some info => simp
      | none =>
          rcases List.mem_cons.mp hq with h | h
          · subst h; rw [hl] at hsome; simp at hsome
          · exact ih q h hsome

/-- A list of characters decomposes uniquely around a separator that occurs
in neither the sought pieces. -/
theorem char_sep_unique (suf : List Char) (hsuf : '/' ∉ suf) :
    ∀ (a pre : List Char), '/' ∉ pre →
      ∀ c, a ++ '/' :: c = pre ++ '/' :: suf → a = pre ∧ c = suf := by
  intro a
  induction a with
  | nil =>
      intro pre hpre c h
      cases pre with
      | nil => simpa using h
      | cons p ps =>
          simp only [List.nil_append, List.cons_append, List.cons.injEq] at h
          exact absurd (h.1 ▸ List.mem_cons_self p ps) hpre
  | cons x a ih =>
      intro pre hpre c h
      cases pre with
      | nil =>
          simp only [List.cons_append, List.nil_append, List.cons.injEq] at h
          have hmem : '/' ∈ a ++ '/' :: c := by simp
          rw [h.2] at hmem
          exact absurd hmem hsuf
      | cons p ps =>
          simp only [List.cons_append, List.cons.injEq] at h
          have hps : '/' ∉ ps := fun hx => hpre (List.mem_cons_of_mem _ hx)
          obtain ⟨ha, hc⟩ := ih ps hps c h.2
          exact ⟨by rw [h.1, ha], hc⟩

/-- String version of the separator decomposition. -/
theorem string_sep_unique (a b pre suf : String) (hpre : '/' ∉ pre.data)
    (hsuf : '/' ∉ suf.data) (h : a ++ "/" ++ b = pre ++ "/" ++ suf) :
    a = pre ∧ b = suf := by
  have hd : a.data ++ '/' :: b.data = pre.data ++ '/' :: suf.data := by
    have := congrArg String.data h
    simpa [String.data_append] using this
  obtain ⟨h₁, h₂⟩ := char_sep_unique suf.data hsuf a.data pre.data hpre b.data hd
  exact ⟨String.ext h₁, String.ext h₂⟩

/-- C9: on every catalog whose Bitcoin entry carries a legacy base code
(`XXBT` or `XBT`) and a quote normalizing into the tried quote list,
`find_pair("BTC")` returns a mapping whose canonical symbol is `BTC`, found
under a canonical `BTC/QUOTE` pair key with the class letter stripped. -/
theorem resolve_btc_strips_legacy_class_letter (catalog : List CatalogEntry)
    (e : CatalogEntry) (hmem : e ∈ catalog)
    (hbase : strUpper e.base = "XXBT" ∨ strUpper e.base = "XBT")
    (hquote : normalizeQuote e.quote ∈ "USD" :: altQuotes) :
    (findPair catalog "BTC" "USD").map PairMapping.base = some "BTC" ∧
    ∃ q info, q ∈ "USD" :: altQuotes ∧
      (buildSymbolMap catalog).lookup ("BTC" ++ "/" ++ q) = some info ∧
      findPair catalog "BTC" "USD" = some info ∧
      info.base = "BTC" ∧ info.quote = q := by
  have hnb : normalizeBase e.base = "BTC" := by
    unfold normalizeBase
    rcases hbase with h | h <;> simp [h]

  have hkey : ((buildSymbolMap catalog).lookup
      ("BTC" ++ "/" ++ normalizeQuote e.quote)).isSome := by
    have := buildSymbolMap_key_present catalog [] e hmem
    rw [hnb] at this
    exact this
  have hchain : findPair catalog "BTC" "USD" =
      tryAltQuotes (buildSymbolMap catalog) "BTC" ("USD" :: altQuotes) := by
    rfl
  have hres : (findPair catalog "BTC" "USD").isSome := by
    rw [hchain]
    exact tryAltQuotes_isSome _ "BTC" ("USD" :: altQuotes)
      (normalizeQuote e.quote) hquote hkey
  obtain ⟨info, hinfo⟩ := Option.isSome_iff_exists.mp hres
  obtain ⟨q, hqmem, hlook⟩ :=
    tryAltQuotes_sound (buildSymbolMap catalog) "BTC" ("USD" :: altQuotes) info
      (by rw [← hchain]; exact hinfo)
  have hshape := buildSymbolMap_key_shape catalog [] (by simp)
    ("BTC" ++ "/" ++ q, info) (lookup_mem _ _ _ hlook)
  have hqslash : '/' ∉ q.data := by
    simp only [altQuotes, List.mem_cons, List.not_mem_nil, or_false] at hqmem
    rcases hqmem with h | h | h | h | h <;> subst h <;> decide
  have hbq : info.base = "BTC" ∧ info.quote = q := by
    have := string_sep_unique info.base info.quote "BTC" q (by decide) hqslash
      hshape.symm
    exact this
  refine ⟨?_, q, info, hqmem, hlook, hinfo, hbq⟩
  rw [hinfo]
  simp [hbq.1]

/-- Kraken's real Bitcoin/US-dollar catalog row. -/
def btcCatalog : List CatalogEntry :=
  [{ pairName := "XXBTZUSD", base := "XXBT", quote := "ZUSD", wsname := "XBT/USD" }]

theorem resolve_btc_strips_legacy_class_letter_witness :
    (findPair btcCatalog "BTC" "USD").map PairMapping.base = some "BTC" :=
  (resolve_btc_strips_legacy_class_letter btcCatalog
    { pairName := "XXBTZUSD", base := "XXBT", quote := "ZUSD", wsname := "XBT/USD" }
    (by decide) (Or.inl (by decide)) (by decide)).1



/-! ## DataStream (src/utils/data_stream.py)

`DataStream` keeps per-`(symbol, timeframe)` candle frames, a tracked-symbol
dict and a single store-wide rolling cap `_max_candles`.  The REST history
source (`data_manager.get_ohlc_data`) and the symbol lookup
(`symbol_manager.find_pair`) are collaborator parameters.  Numeric OHLCV
fields are modelled as integers (the `float(...)` parses are injective on
the values involved and play no role in the claims). -/

/-- A parsed candle row of a `DataStream` frame: timestamp plus OHLCV. -/
structure Candle where
  timestamp : Int
  copen : Int
  chigh : Int
  clow : Int
  cclose : Int
  cvolume : Int
deriving DecidableEq

/-- One raw Kraken OHLC array entry
`[time, open, high, low, close, vwap, volume, count]` as returned by the
history source. -/
structure RawCandle where
  time : Int
  ropen : Int
  rhigh : Int
  rlow : Int
  rclose : Int
  rvwap : Int
  rvolume : Int
  rcount : Int
deriving DecidableEq

/-- How `load_symbol` parses one raw candle: fields 0–4 and field 6 (the
vwap at index 5 is skipped). -/
def toCandle (c : RawCandle) : Candle :=
  { timestamp := c.time, copen := c.ropen, chigh := c.rhigh, clow := c.rlow,
    cclose := c.rclose, cvolume := c.rvolume }

/-- One live OHLC tick as delivered to `_process_live_candle`. -/
structure LiveTick where
  pair : String
  lopen : Int
  lhigh : Int
  llow : Int
  lclose : Int
  lvolume : Int
deriving DecidableEq

/-- The mutable state of a `DataStream` instance: `_candles_data`,
`_tracked_symbols` and `_max_candles`. -/
structure DSState where
  candles : List ((String × String) × List Candle)
  tracked : List (String × PairMapping)
  maxCandles : Nat
deriving DecidableEq

/-- `DataStream.__init__`: empty stores and a default rolling window of
1000 candles. -/
def DSState.init : DSState := ⟨[], [], 1000⟩

/-- `DataStream.TIMEFRAMES`. -/
def TIMEFRAMES : List (String × Nat) := [("1m", 1), ("5m", 5), ("15m", 15), ("1h", 60)]

/-- The Kraken interval used for a timeframe. -/
def intervalOf (tf : String) : Nat := (TIMEFRAMES.lookup tf).getD 0

/-- Python's `xs[-n:]` slice on a natural count: for `n = 0` it is `xs[0:]`,
the whole list; otherwise the last `n` elements. -/
def pySliceLast {α : Type} (n : Nat) (xs : List α) : List α :=
  if n = 0 then xs else xs.drop (xs.length - n)

/-- Polars `DataFrame.tail(n)`: the last `min(n, len)` rows. -/
def dfTail {α : Type} (n : Nat) (xs : List α) : List α :=
  xs.drop (xs.length - n)

/-- The error message `load_symbol` hands to error callbacks when a
timeframe's fetch raises. -/
def loadErrMsg (symU tf e : String) : String :=
  "Error loading " ++ symU ++ " " ++ tf ++ ": " ++ e

/-- Whether a fetch outcome is a body that contains candles for the pair
(`ohlc_data` truthy and `kraken_pair in ohlc_data`). -/
def fetchOkSome (r : Except String (Option (List RawCandle))) : Bool :=
  match r with
  | .ok (some _) => true
  | _ => false

/-- Accumulator of `load_symbol`'s per-timeframe loop: the candle store, the
data-callback and error-callback invocations so far, and `success_count`. -/
structure LoadAcc where
  store : List ((String × String) × List Candle)
  dataEvents : List (String × String × List Candle)
  errorEvents : List (String × String)
  successCount : Nat
deriving DecidableEq

/-- Result of one `load_symbol` call: the returned boolean, the state after
the call, and the callback invocations in order. -/
structure LoadResult where
  ok : Bool
  state : DSState
  dataEvents : List (String × String × List Candle)
  errorEvents : List (String × String)
deriving DecidableEq

/-- One iteration of `load_symbol`'s `for timeframe in timeframes` loop.
A fetch that raises appends an error event and moves on; a fetch returning
no data for the pair just moves on (`continue` after a print, with no error
callback); otherwise the last `history_count` raw candles are parsed, stored
under `(symbol, timeframe)` and announced to the data callbacks. -/
def loadStep (fetch : String → Nat → Except String (Option (List RawCandle)))
    (krakenPair symU : String) (historyCount : Nat) (acc : LoadAcc)
    (tf : String) : LoadAcc :=
  match fetch krakenPair (intervalOf tf) with
  | .error e =>
      { acc with errorEvents := acc.errorEvents ++ [(symU, loadErrMsg symU tf e)] }
  | .ok none => acc
  | .ok (some rcs) =>
      let candles := (pySliceLast historyCount rcs).map toCandle
      { store := dictSet acc.store (symU, tf) candles
        dataEvents := acc.dataEvents ++ [(symU, tf, candles)]
        errorEvents := acc.errorEvents
        successCount := acc.successCount + 1 }

/-- Epilogue of `load_symbol` (lines 192–197): with at least one successful
timeframe the symbol is recorded as tracked, `_max_candles` grows to
`max(_max_candles, history_count * 2)` and `True` is returned; otherwise
`False`. -/
def loadFinish (st : DSState) (symU : String) (pairInfo : PairMapping)
    (historyCount : Nat) (acc : LoadAcc) : LoadResult :=
  if 0 < acc.successCount then
    ⟨true,
      ⟨acc.store, dictSet st.tracked symU pairInfo,
        max st.maxCandles (historyCount * 2)⟩,
      acc.dataEvents, acc.errorEvents⟩
  else ⟨false, ⟨acc.store, st.tracked, st.maxCandles⟩, acc.dataEvents, acc.errorEvents⟩

/-- `DataStream.load_symbol` (src/utils/data_stream.py, lines 106–197):
upper-cases the symbol, filters the timeframes against `TIMEFRAMES`,
resolves the pair, backfills each timeframe independently, and finishes via
`loadFinish`. -/
def loadSymbol (fetch : String → Nat → Except String (Option (List RawCandle)))
    (findPairF : String → Option PairMapping) (symbol : String)
    (timeframes : List String) (historyCount : Nat) (st : DSState) : LoadResult :=
  if timeframes.filter (fun tf => (TIMEFRAMES.lookup tf).isSome) = [] then
    ⟨false, st, [], []⟩
  else
    match findPairF (strUpper symbol) with
    | none => ⟨false, st, [],
        [(strUpper symbol, "Symbol " ++ strUpper symbol ++ " not found")]⟩
    | some pairInfo =>
        loadFinish st (strUpper symbol) pairInfo historyCount
          ((timeframes.filter (fun tf => (TIMEFRAMES.lookup tf).isSome)).foldl
            (loadStep fetch pairInfo.krakenPair (strUpper symbol) historyCount)
            ⟨st.candles, [], [], 0⟩)

/-- The frame `load_symbol` stores for a timeframe whose fetch returned
candles (and `[]` for the unreachable other cases). -/
def parsedOf (fetch : String → Nat → Except String (Option (List RawCandle)))
    (kp : String) (hc : Nat) (tf : String) : List Candle :=
  match fetch kp (intervalOf tf) with
  | .ok (some rcs) => (pySliceLast hc rcs).map toCandle
  | _ => []

theorem loadFold_store (fetch : String → Nat → Except String (Option (List RawCandle)))
    (kp symU : String) (hc : Nat) (tfs : List String) :
    ∀ (acc : LoadAcc) (s tf : String),
      ((tfs.foldl (loadStep fetch kp symU hc) acc).store.lookup (s, tf)) =
        if s = symU ∧ tf ∈ tfs ∧ fetchOkSome (fetch kp (intervalOf tf)) = true then
          some (parsedOf fetch kp hc tf)
        else acc.store.lookup (s, tf) := by
  induction tfs with
  | nil => intro acc s tf; simp
  | cons c tfs ih =>
      intro acc s tf
      rw [List.foldl_cons, ih]
      cases hf : fetch kp (intervalOf c) with
      | error e =>
          have hstep : (loadStep fetch kp symU hc acc c).store = acc.store := by
            simp [loadStep, hf]
          rw [hstep]
          by_cases htc : tf = c
          · subst htc
            have hok : fetchOkSome (fetch kp (intervalOf tf)) = false := by
              rw [hf]; rfl
            simp [hok]
          · simp only [List.mem_cons, htc, false_or]
      | ok o =>
          cases o with
          | none =>
              have hstep : (loadStep fetch kp symU hc acc c).store = acc.store := by
                simp [loadStep, hf]
              rw [hstep]
              by_cases htc : tf = c
              · subst htc
                have hok : fetchOkSome (fetch kp (intervalOf tf)) = false := by
                  rw [hf]; rfl
                simp [hok]
              · simp only [List.mem_cons, htc, false_or]
          | some rcs =>
              have hstep : (loadStep fetch kp symU hc acc c).store =
                  dictSet acc.store (symU, c) ((pySliceLast hc rcs).map toCandle) := by
                simp [loadStep, hf]
              rw [hstep]
              by_cases hs : s = symU
              · subst hs
                by_cases htc : tf = c
                · subst htc
                  have hok : fetchOkSome (fetch kp (intervalOf tf)) = true := by
                    rw [hf]; rfl
                  have hparsed : parsedOf fetch kp hc tf =
                      (pySliceLast hc rcs).map toCandle := by
                    simp [parsedOf, hf]
                  by_cases hmem : tf ∈ tfs
                  · simp [hok, hmem, hparsed]
                  · simp only [hok, hmem, and_true, and_false, if_false,
                      List.mem_cons, or_false, true_and, if_true, eq_self_iff_true]
                    rw [hparsed]
                    exact dictSet_lookup _ _ _
                · have hne : ((s, tf) : String × String) ≠ (s, c) := by
                    simp [htc]
                  rw [dictSet_lookup_ne _ _ _ _ hne]
                  simp only [List.mem_cons, htc, false_or]
              · have hne : ((s, tf) : String × String) ≠ (symU, c) := by
                  simp [hs]
                rw [dictSet_lookup_ne _ _ _ _ hne]
                simp [hs]

theorem loadFold_errors (fetch : String → Nat → Except String (Option (List RawCandle)))
    (kp symU : String) (hc : Nat) (tfs : List String) :
    ∀ acc : LoadAcc,
      (tfs.foldl (loadStep fetch kp symU hc) acc).errorEvents =
        acc.errorEvents ++ tfs.filterMap (fun tf =>
          match fetch kp (intervalOf tf) with
          | .error e => some (symU, loadErrMsg symU tf e)
          | _ => none) := by
  induction tfs with
  | nil => intro acc; simp
  | cons c tfs ih =>
      intro acc
      rw [List.foldl_cons, ih]
      cases hf : fetch kp (intervalOf c) with
      | error e => simp [loadStep, hf, List.filterMap_cons]
      | ok o =>
          cases o with
          | none => simp [loadStep, hf, List.filterMap_cons]
          | some rcs => simp [loadStep, hf, List.filterMap_cons]

theorem loadFold_count (fetch : String → Nat → Except String (Option (List RawCandle)))
    (kp symU : String) (hc : Nat) (tfs : List String) :
    ∀ acc : LoadAcc,
      (tfs.foldl (loadStep fetch kp symU hc) acc).successCount =
        acc.successCount + tfs.countP (fun tf => fetchOkSome (fetch kp (intervalOf tf))) := by
  induction tfs with
  | nil => intro acc; simp
  | cons c tfs ih =>
      intro acc
      rw [List.foldl_cons, ih]
      cases hf : fetch kp (intervalOf c) with
      | error e => simp [loadStep, hf, List.countP_cons, fetchOkSome]
      | ok o =>
          cases o with
          | none => simp [loadStep, hf, List.countP_cons, fetchOkSome]
          | some rcs => simp [loadStep, hf, List.countP_cons, fetchOkSome]; omega

theorem parsedOf_length_le (fetch : String → Nat → Except String (Option (List RawCandle)))
    (kp : String) (hc : Nat) (tf : String) (hhc : 1 ≤ hc) :
    (parsedOf fetch kp hc tf).length ≤ hc := by
  unfold parsedOf
  split
  · rename_i rcs _
    rw [List.length_map]
    unfold pySliceLast
    rw [if_neg (by omega)]
    rw [List.length_drop]
    omega
  · simp

theorem parsedOf_chain (fetch : String → Nat → Except String (Option (List RawCandle)))
    (kp : String) (hc : Nat) (tf : String)
    (hasc : ∀ rcs, fetch kp (intervalOf tf) = .ok (some rcs) →
      (rcs.map RawCandle.time).Chain' (· < ·)) :
    ((parsedOf fetch kp hc tf).map Candle.timestamp).Chain' (· < ·) := by
  unfold parsedOf
  split
  · rename_i rcs heq
    have hmaps : ((pySliceLast hc rcs).map toCandle).map Candle.timestamp =
        (pySliceLast hc rcs).map RawCandle.time := by
      rw [List.map_map]; rfl
    rw [hmaps]
    unfold pySliceLast
    split
    · exact hasc rcs heq
    · rw [List.map_drop]
      exact (hasc rcs heq).drop _
  · simp

/-- C6 (amended): for every symbol, every non-empty list of valid
timeframes and every `history_count ≥ 1`, against a history source whose
candle timestamps are strictly ascending and a store with no prior frames
for the symbol: `load_symbol` returns `True` iff the pair resolves and at
least one requested timeframe's fetch returns candles; every frame stored
for the symbol has at most `history_count` candles with strictly ascending
timestamps; a timeframe whose fetch raises is reported through the error
callback (and exactly those are); and each timeframe's outcome is
independent of the others — a failed one is simply absent from the store. -/
theorem load_symbol_backfill
    (fetch : String → Nat → Except String (Option (List RawCandle)))
    (findPairF : String → Option PairMapping) (symbol : String)
    (timeframes : List String) (historyCount : Nat) (st : DSState)
    (r : LoadResult)
    (hr : r = loadSymbol fetch findPairF symbol timeframes historyCount st)
    (hne : timeframes ≠ [])
    (hvalid : ∀ tf ∈ timeframes, (TIMEFRAMES.lookup tf).isSome)
    (hhc : 1 ≤ historyCount)
    (hasc : ∀ p i rcs, fetch p i = .ok (some rcs) →
      (rcs.map RawCandle.time).Chain' (· < ·))
    (hfresh : ∀ tf, st.candles.lookup (strUpper symbol, tf) = none) :
    (r.ok = true ↔ ∃ p, findPairF (strUpper symbol) = some p ∧
        ∃ tf ∈ timeframes, fetchOkSome (fetch p.krakenPair (intervalOf tf)) = true) ∧
    (∀ tf cs, r.state.candles.lookup (strUpper symbol, tf) = some cs →
        cs.length ≤ historyCount ∧ (cs.map Candle.timestamp).Chain' (· < ·)) ∧
    (∀ p, findPairF (strUpper symbol) = some p →
        r.errorEvents = timeframes.filterMap (fun tf =>
          match fetch p.krakenPair (intervalOf tf) with
          | .error e => some (strUpper symbol, loadErrMsg (strUpper symbol) tf e)
          | _ => none)) ∧
    (∀ p, findPairF (strUpper symbol) = some p → ∀ tf ∈ timeframes,
        r.state.candles.lookup (strUpper symbol, tf) =
          if fetchOkSome (fetch p.krakenPair (intervalOf tf)) = true then
            some (parsedOf fetch p.krakenPair historyCount tf)
          else none) := by
  have hfilter : timeframes.filter (fun tf => (TIMEFRAMES.lookup tf).isSome) =
      timeframes := List.filter_eq_self.mpr hvalid
  unfold loadSymbol at hr
  rw [hfilter, if_neg hne] at hr
  cases hfp : findPairF (strUpper symbol) with
  | none =>
      simp only [hfp] at hr
      refine ⟨?_, ?_, ?_, ?_⟩
      · rw [hr]
        simp
      · intro tf cs hcs
        rw [hr] at hcs
        simp only at hcs
        rw [hfresh tf] at hcs
        cases hcs
      · intro p hp
        cases hp
      · intro p hp
        cases hp
  | some pairInfo =>
      simp only [hfp] at hr
      have hstoreF := loadFold_store fetch pairInfo.krakenPair (strUpper symbol)
        historyCount timeframes ⟨st.candles, [], [], 0⟩
      have herrF := loadFold_errors fetch pairInfo.krakenPair (strUpper symbol)
        historyCount timeframes ⟨st.candles, [], [], 0⟩
      have hcntF := loadFold_count fetch pairInfo.krakenPair (strUpper symbol)
        historyCount timeframes ⟨st.candles, [], [], 0⟩
      have hcand : r.state.candles =
          (timeframes.foldl
            (loadStep fetch pairInfo.krakenPair (strUpper symbol) historyCount)
            ⟨st.candles, [], [], 0⟩).store := by
        rw [hr]; unfold loadFinish; split <;> rfl
      have herr2 : r.errorEvents =
          (timeframes.foldl
            (loadStep fetch pairInfo.krakenPair (strUpper symbol) historyCount)
            ⟨st.candles, [], [], 0⟩).errorEvents := by
        rw [hr]; unfold loadFinish; split <;> rfl
      have hok : (r.ok = true) ↔ 0 <
          (timeframes.foldl
            (loadStep fetch pairInfo.krakenPair (strUpper symbol) historyCount)
            ⟨st.candles, [], [], 0⟩).successCount := by
        rw [hr]; unfold loadFinish
        split
        · rename_i h; simpa using h
        · rename_i h; simp only [Bool.false_eq_true, false_iff]; exact h
      refine ⟨?_, ?_, ?_, ?_⟩
      · rw [hok, hcntF]
        simp only [Nat.zero_add]
        rw [List.countP_pos_iff]
        constructor
        · rintro ⟨tf, htf, hp⟩
          exact ⟨pairInfo, rfl, tf, htf, hp⟩
        · rintro ⟨p, hp, tf, htf, hps⟩
          injection hp with hp'
          subst hp'
          exact ⟨tf, htf, hps⟩
      · intro tf cs hcs
        rw [hcand, hstoreF] at hcs
        split at hcs
        · rename_i hcond
          cases hcs
          exact ⟨parsedOf_length_le _ _ _ _ hhc,
            parsedOf_chain _ _ _ _ (fun rcs h => hasc _ _ rcs h)⟩
        · simp only at hcs
          rw [hfresh tf] at hcs
          cases hcs
      · intro p hp
        injection hp with hp'
        subst hp'
        rw [herr2, herrF]
        rfl
      · intro p hp tf htf
        injection hp with hp'
        subst hp'
        rw [hcand, hstoreF]
        by_cases hfo : fetchOkSome (fetch pairInfo.krakenPair (intervalOf tf)) = true
        · rw [if_pos ⟨rfl, htf, hfo⟩, if_pos hfo]
        · rw [if_neg (by intro hcond; exact hfo hcond.2.2), if_neg hfo]
          simpa using hfresh tf

/-- History source of the C6 counterexample: interval 1 gets two candles
with the same timestamp, every other interval has no data for the pair. -/
def cexFetch : String → Nat → Except String (Option (List RawCandle)) :=
  fun _ i =>
    if i = 1 then .ok (some [⟨5, 1, 2, 0, 1, 1, 3, 2⟩, ⟨5, 1, 2, 0, 1, 1, 3, 2⟩])
    else .ok none

/-- Pair mapping of the C6 counterexample. -/
def cexPairInfo : PairMapping :=
  ⟨"XXBTZUSD", some "BTC/USD", "BTC", "USD", "XXBT", "ZUSD"⟩

/-- Symbol lookup of the C6 counterexample. -/
def cexFindPair : String → Option PairMapping :=
  fun s => if s = "BTC" then some cexPairInfo else none

/-- C6 (counterexample to the claim as stated): with `history_count = 0`
(Python `candles[-0:]` is the whole list) and the `5m` fetch returning no
data, `load_symbol` succeeds, stores a `1m` frame of 2 > 0 candles whose
timestamps are not strictly ascending, and reports nothing to the error
callback although the `5m` backfill failed and is absent from the store. -/
theorem load_symbol_backfill_counterexample :
    (loadSymbol cexFetch cexFindPair "BTC" ["1m", "5m"] 0 DSState.init).ok = true ∧
    (((loadSymbol cexFetch cexFindPair "BTC" ["1m", "5m"] 0
        DSState.init).state.candles.lookup ("BTC", "1m")).getD []).length = 2 ∧
    ¬(((((loadSymbol cexFetch cexFindPair "BTC" ["1m", "5m"] 0
        DSState.init).state.candles.lookup ("BTC", "1m")).getD []).map
          Candle.timestamp).Chain' (· < ·)) ∧
    cexFetch "XXBTZUSD" 5 = .ok none ∧
    (loadSymbol cexFetch cexFindPair "BTC" ["1m", "5m"] 0
        DSState.init).errorEvents = [] ∧
    (loadSymbol cexFetch cexFindPair "BTC" ["1m", "5m"] 0
        DSState.init).state.candles.lookup ("BTC", "5m") = none := by
  refine ⟨by decide, by decide, ?_, rfl, by decide, by decide⟩
  intro h
  have hts : (((loadSymbol cexFetch cexFindPair "BTC" ["1m", "5m"] 0
      DSState.init).state.candles.lookup ("BTC", "1m")).getD []).map
        Candle.timestamp = [5, 5] := by decide
  rw [hts] at h
  have h55 := (List.chain'_cons.mp h).1
  omega

/-- History source of the C6 witness: two ascending 1m candles, a raising
5m fetch. -/
def wFetch : String → Nat → Except String (Option (List RawCandle)) :=
  fun _ i =>
    if i = 1 then
      .ok (some [⟨1, 10, 12, 9, 11, 10, 100, 5⟩, ⟨2, 11, 13, 10, 12, 11, 90, 4⟩])
    else .error "down"

/-- Pair mapping of the C6 witness. -/
def wPairInfo : PairMapping :=
  ⟨"XXBTZUSD", some "BTC/USD", "BTC", "USD", "XXBT", "ZUSD"⟩

/-- Symbol lookup of the C6 witness. -/
def wFindPair : String → Option PairMapping :=
  fun s => if s = "BTC" then some wPairInfo else none

theorem load_symbol_backfill_witness :
    (loadSymbol wFetch wFindPair "BTC" ["1m", "5m"] 500 DSState.init).ok = true ∧
    (loadSymbol wFetch wFindPair "BTC" ["1m", "5m"] 500
        DSState.init).state.candles.lookup ("BTC", "1m") =
      some (parsedOf wFetch "XXBTZUSD" 500 "1m") ∧
    (loadSymbol wFetch wFindPair "BTC" ["1m", "5m"] 500
        DSState.init).state.candles.lookup ("BTC", "5m") = none ∧
    (loadSymbol wFetch wFindPair "BTC" ["1m", "5m"] 500
        DSState.init).errorEvents = [("BTC", loadErrMsg "BTC" "5m" "down")] := by
  have h := load_symbol_backfill wFetch wFindPair "BTC" ["1m", "5m"] 500 DSState.init
    (loadSymbol wFetch wFindPair "BTC" ["1m", "5m"] 500 DSState.init) rfl
    (by decide) (by decide) (by decide)
    (by
      intro p i rcs hfe
      by_cases hi : i = 1
      · subst hi
        simp [wFetch] at hfe
        subst hfe
        exact List.chain'_pair.mpr (by norm_num)
      · simp only [wFetch, if_neg hi] at hfe
        exact Except.noConfusion hfe)
    (fun tf => rfl)
  simp only [show strUpper "BTC" = "BTC" from rfl] at h
  refine ⟨?_, ?_, ?_, ?_⟩
  · exact h.1.mpr ⟨wPairInfo, rfl, "1m", by decide, by decide⟩
  · rw [h.2.2.2 wPairInfo rfl "1m" (by decide)]
    decide
  · rw [h.2.2.2 wPairInfo rfl "5m" (by decide)]
    decide
  · rw [h.2.2.1 wPairInfo rfl]
    decide

/-- The candle `_process_live_candle` builds from a live tick: the timestamp
is `datetime.now()` (the `now` parameter), not the tick's own time. -/
def tickCandle (now : Int) (ohlc : LiveTick) : Candle :=
  ⟨now, ohlc.lopen, ohlc.lhigh, ohlc.llow, ohlc.lclose, ohlc.lvolume⟩

/-- `DataStream._process_live_candle` (src/utils/data_stream.py, lines
70–104): appends the new row to the `(symbol, '1m')` frame and keeps the
last `_max_candles` rows, or creates a fresh one-row frame; then notifies
the data callbacks with the updated frame. -/
def processLiveCandle (symbol : String) (ohlc : LiveTick) (now : Int)
    (st : DSState) :
    DSState × List (String × String × List Candle) × List (String × String) :=
  let newRow := tickCandle now ohlc
  let key := (symbol, "1m")
  let updated :=
    match st.candles.lookup key with
    | some df => dfTail st.maxCandles (df ++ [newRow])
    | none => [newRow]
  (⟨dictSet st.candles key updated, st.tracked, st.maxCandles⟩,
    [(symbol, "1m", updated)], [])

/-- `DataStream._websocket_callback` (src/utils/data_stream.py, lines
53–68): on an `ohlc` frame with a non-empty data list, scans the tracked
symbols for one whose `websocket_pair` equals the tick's raw pair and
processes the tick for it; otherwise the message is dropped with no effect. -/
def websocketCallback (channel : String) (ticks : List LiveTick) (now : Int)
    (st : DSState) :
    DSState × List (String × String × List Candle) × List (String × String) :=
  if channel = "ohlc" then
    match ticks with
    | [] => (st, [], [])
    | ohlc :: _ =>
        match st.tracked.find? (fun p => p.2.websocketPair == some ohlc.pair) with
        | some (sym, _) => processLiveCandle sym ohlc now st
        | none => (st, [], [])
  else (st, [], [])

theorem mem_of_mem_getLast? {α : Type} {l : List α} {x : α}
    (h : x ∈ l.getLast?) : x ∈ l := by
  obtain ⟨hne, hx⟩ := List.mem_getLast?_eq_getLast h
  rw [hx]
  exact List.getLast_mem hne

/-- C7 (amended): delivering one live tick for a tracked symbol whose `1m`
frame satisfies the invariants appends exactly one candle stamped with the
current clock reading: the new frame is the old one plus the new row,
trimmed to the rolling cap (`min(len+1, cap)` rows, oldest dropped on
overflow), its timestamps stay strictly ascending provided the clock reading
exceeds every stored timestamp, the new row is last, the data callbacks see
exactly the new frame, and no error callback fires. -/
theorem live_tick_appends_one_candle (symbol : String) (ohlc : LiveTick)
    (now : Int) (st : DSState) (cs : List Candle)
    (hk : st.candles.lookup (symbol, "1m") = some cs)
    (hmax : 1 ≤ st.maxCandles)
    (hnow : ∀ t ∈ cs.map Candle.timestamp, t < now) :
    (processLiveCandle symbol ohlc now st).1.candles.lookup (symbol, "1m") =
      some ((cs ++ [tickCandle now ohlc]).drop (cs.length + 1 - st.maxCandles)) ∧
    ((cs ++ [tickCandle now ohlc]).drop (cs.length + 1 - st.maxCandles)).length =
      min (cs.length + 1) st.maxCandles ∧
    ((cs.map Candle.timestamp).Chain' (· < ·) →
      (((cs ++ [tickCandle now ohlc]).drop (cs.length + 1 - st.maxCandles)).map
        Candle.timestamp).Chain' (· < ·)) ∧
    ((cs ++ [tickCandle now ohlc]).drop
        (cs.length + 1 - st.maxCandles)).getLast? = some (tickCandle now ohlc) ∧
    (processLiveCandle symbol ohlc now st).2.1 =
      [(symbol, "1m",
        (cs ++ [tickCandle now ohlc]).drop (cs.length + 1 - st.maxCandles))] ∧
    (processLiveCandle symbol ohlc now st).2.2 = [] := by
  have hlen : (cs ++ [tickCandle now ohlc]).length = cs.length + 1 := by
    rw [List.length_append, List.length_singleton]
  have hupd : dfTail st.maxCandles (cs ++ [tickCandle now ohlc]) =
      (cs ++ [tickCandle now ohlc]).drop (cs.length + 1 - st.maxCandles) := by
    unfold dfTail
    rw [hlen]
  have hproc : processLiveCandle symbol ohlc now st =
      (⟨dictSet st.candles (symbol, "1m")
          ((cs ++ [tickCandle now ohlc]).drop (cs.length + 1 - st.maxCandles)),
        st.tracked, st.maxCandles⟩,
        [(symbol, "1m",
          (cs ++ [tickCandle now ohlc]).drop (cs.length + 1 - st.maxCandles))],
        []) := by
    unfold processLiveCandle
    simp only [hk, hupd]
  refine ⟨?_, ?_, ?_, ?_, ?_, ?_⟩
  · rw [hproc]
    exact dictSet_lookup _ _ _
  · rw [List.length_drop, hlen]
    omega
  · intro hasc
    rw [List.map_drop]
    refine List.Chain'.drop ?_ _
    rw [List.map_append]
    refine hasc.append (List.chain'_singleton _) ?_
    intro x hx y hy
    simp only [List.map_cons, List.map_nil, List.head?_cons, Option.mem_def,
      Option.some.injEq] at hy
    subst hy
    exact hnow x (mem_of_mem_getLast? hx)
  · rw [List.drop_append_of_le_length (by omega)]
    exact List.getLast?_concat _
  · rw [hproc]
  · rw [hproc]

/-- Tick of the C7 witness. -/
def w7Tick : LiveTick := ⟨"BTC/USD", 10, 12, 9, 11, 7⟩

/-- A full two-candle frame at cap 2 for the C7 witness. -/
def w7State : DSState :=
  ⟨[(("BTC", "1m"), [⟨1, 1, 1, 1, 1, 1⟩, ⟨2, 2, 2, 2, 2, 2⟩])], [], 2⟩

theorem live_tick_appends_one_candle_witness :
    (processLiveCandle "BTC" w7Tick 3 w7State).1.candles.lookup ("BTC", "1m") =
      some ((([⟨1, 1, 1, 1, 1, 1⟩, ⟨2, 2, 2, 2, 2, 2⟩] : List Candle) ++
        [tickCandle 3 w7Tick]).drop
          (([⟨1, 1, 1, 1, 1, 1⟩, ⟨2, 2, 2, 2, 2, 2⟩] : List Candle).length + 1 -
            w7State.maxCandles)) ∧
    ((([⟨1, 1, 1, 1, 1, 1⟩, ⟨2, 2, 2, 2, 2, 2⟩] : List Candle) ++
        [tickCandle 3 w7Tick]).drop
          (([⟨1, 1, 1, 1, 1, 1⟩, ⟨2, 2, 2, 2, 2, 2⟩] : List Candle).length + 1 -
            w7State.maxCandles)).length =
      min (([⟨1, 1, 1, 1, 1, 1⟩, ⟨2, 2, 2, 2, 2, 2⟩] : List Candle).length + 1)
        w7State.maxCandles ∧
    (processLiveCandle "BTC" w7Tick 3 w7State).2.2 = [] := by
  have h := live_tick_appends_one_candle "BTC" w7Tick 3 w7State
    [⟨1, 1, 1, 1, 1, 1⟩, ⟨2, 2, 2, 2, 2, 2⟩] (by decide) (by decide) (by decide)
  exact ⟨h.1, h.2.1, h.2.2.2.2.2⟩

/-- Tick of the C7 counterexample. -/
def c7Tick : LiveTick := ⟨"BTC/USD", 1, 2, 0, 1, 3⟩

/-- C7 (counterexample to the claim as stated): live candles are stamped
with `datetime.now()`, so two ticks processed while the clock reads the same
value leave duplicated, non-ascending timestamps in the `1m` frame. -/
theorem live_tick_appends_one_candle_counterexample :
    (((processLiveCandle "BTC" c7Tick 5
        (processLiveCandle "BTC" c7Tick 5 DSState.init).1).1.candles.lookup
          ("BTC", "1m")).getD []).map Candle.timestamp = [5, 5] ∧
    ¬((((processLiveCandle "BTC" c7Tick 5
        (processLiveCandle "BTC" c7Tick 5 DSState.init).1).1.candles.lookup
          ("BTC", "1m")).getD []).map Candle.timestamp).Chain' (· < ·) := by
  refine ⟨by decide, ?_⟩
  intro h
  have hts : (((processLiveCandle "BTC" c7Tick 5
      (processLiveCandle "BTC" c7Tick 5 DSState.init).1).1.candles.lookup
        ("BTC", "1m")).getD []).map Candle.timestamp = [5, 5] := by decide
  rw [hts] at h
  have h55 := (List.chain'_cons.mp h).1
  omega

/-- C8: an inbound live OHLC message whose raw pair matches no tracked
symbol's websocket pair is silently dropped — no data callback, no error
callback, every stored frame unchanged. -/
theorem unmatched_tick_silently_dropped (ohlc : LiveTick)
    (rest : List LiveTick) (now : Int) (st : DSState)
    (h : ∀ p ∈ st.tracked, p.2.websocketPair ≠ some ohlc.pair) :
    websocketCallback "ohlc" (ohlc :: rest) now st = (st, [], []) := by
  have hfind : st.tracked.find?
      (fun p => p.2.websocketPair == some ohlc.pair) = none := by
    rw [List.find?_eq_none]
    intro p hp hbeq
    exact h p hp (eq_of_beq hbeq)
  unfold websocketCallback
  rw [if_pos rfl]
  simp only [hfind]

/-- Tracked mapping of the C8 witness. -/
def w8Pair : PairMapping :=
  ⟨"XETHZUSD", some "ETH/USD", "ETH", "USD", "XETH", "ZUSD"⟩

/-- State of the C8 witness: one tracked symbol with one empty frame. -/
def w8State : DSState := ⟨[(("ETH", "1m"), [])], [("ETH", w8Pair)], 1000⟩

/-- A tick for a pair nobody tracks. -/
def w8Tick : LiveTick := ⟨"DOGE/USD", 1, 1, 1, 1, 1⟩

theorem unmatched_tick_silently_dropped_witness :
    websocketCallback "ohlc" [w8Tick] 7 w8State = (w8State, [], []) :=
  unmatched_tick_silently_dropped w8Tick [] 7 w8State (by decide)

/-- C10: the rolling cap is one store-wide field: it starts at 1000, a
successful `load_symbol` with history count `h` raises it to
`max(cap, 2*h)`, a failed one leaves it unchanged, it never decreases, and
`_process_live_candle` trims every symbol's live frame to that same shared
field. -/
theorem rolling_cap_store_wide
    (fetch : String → Nat → Except String (Option (List RawCandle)))
    (findPairF : String → Option PairMapping) (symbol : String)
    (timeframes : List String) (historyCount : Nat) (st : DSState) :
    DSState.init.maxCandles = 1000 ∧
    ((loadSymbol fetch findPairF symbol timeframes historyCount st).ok = true →
      (loadSymbol fetch findPairF symbol timeframes historyCount
        st).state.maxCandles = max st.maxCandles (historyCount * 2)) ∧
    ((loadSymbol fetch findPairF symbol timeframes historyCount st).ok = false →
      (loadSymbol fetch findPairF symbol timeframes historyCount
        st).state.maxCandles = st.maxCandles) ∧
    st.maxCandles ≤
      (loadSymbol fetch findPairF symbol timeframes historyCount
        st).state.maxCandles ∧
    (∀ (sym : String) (ohlc : LiveTick) (now : Int) (cs : List Candle),
      st.candles.lookup (sym, "1m") = some cs →
      (processLiveCandle sym ohlc now st).1.candles.lookup (sym, "1m") =
        some (dfTail st.maxCandles (cs ++ [tickCandle now ohlc]))) := by
  have hlive : ∀ (sym : String) (ohlc : LiveTick) (now : Int) (cs : List Candle),
      st.candles.lookup (sym, "1m") = some cs →
      (processLiveCandle sym ohlc now st).1.candles.lookup (sym, "1m") =
        some (dfTail st.maxCandles (cs ++ [tickCandle now ohlc])) := by
    intro sym ohlc now cs hcs
    unfold processLiveCandle
    simp only [hcs]
    exact dictSet_lookup _ _ _
  refine ⟨rfl, ?_⟩
  by_cases h1 : timeframes.filter (fun tf => (TIMEFRAMES.lookup tf).isSome) = []
  · have hL : loadSymbol fetch findPairF symbol timeframes historyCount st =
        ⟨false, st, [], []⟩ := by
      unfold loadSymbol
      rw [if_pos h1]
    rw [hL]
    exact ⟨fun h => by simp at h, fun _ => rfl, le_refl _, hlive⟩
  · cases hfp : findPairF (strUpper symbol) with
    | none =>
        have hL : loadSymbol fetch findPairF symbol timeframes historyCount st =
            ⟨false, st, [],
              [(strUpper symbol, "Symbol " ++ strUpper symbol ++ " not found")]⟩ := by
          unfold loadSymbol
          rw [if_neg h1]
          simp only [hfp]
        rw [hL]
        exact ⟨fun h => by simp at h, fun _ => rfl, le_refl _, hlive⟩
    | some pairInfo =>
        have hL : loadSymbol fetch findPairF symbol timeframes historyCount st =
            loadFinish st (strUpper symbol) pairInfo historyCount
              ((timeframes.filter (fun tf => (TIMEFRAMES.lookup tf).isSome)).foldl
                (loadStep fetch pairInfo.krakenPair (strUpper symbol) historyCount)
                ⟨st.candles, [], [], 0⟩) := by
          unfold loadSymbol
          rw [if_neg h1]
          simp only [hfp]
        rw [hL]
        unfold loadFinish
        split
        · exact ⟨fun _ => rfl, fun h => by simp at h, le_max_left _ _, hlive⟩
        · exact ⟨fun h => by simp at h, fun _ => rfl, le_refl _, hlive⟩

/-- History source of the C10 witness. -/
def w10Fetch : String → Nat → Except String (Option (List RawCandle)) :=
  fun _ _ => .ok (some [⟨1, 0, 0, 0, 0, 0, 0, 0⟩])

/-- Pair mapping of the C10 witness. -/
def w10Pair : PairMapping := ⟨"XXBTZUSD", none, "BTC", "USD", "XXBT", "ZUSD"⟩

/-- Symbol lookup of the C10 witness. -/
def w10Find : String → Option PairMapping := fun _ => some w10Pair

/-- A candle of the C10 witness. -/
def w10C : Candle := ⟨1, 1, 1, 1, 1, 1⟩

/-- State of the C10 witness: an `ETH` frame and a cap of 3. -/
def w10State : DSState := ⟨[(("ETH", "1m"), [w10C])], [], 3⟩

/-- A live tick of the C10 witness. -/
def w10Tick : LiveTick := ⟨"ETH/USD", 2, 2, 2, 2, 2⟩

theorem rolling_cap_store_wide_witness :
    DSState.init.maxCandles = 1000 ∧
    (loadSymbol w10Fetch w10Find "BTC" ["1m"] 700 w10State).state.maxCandles =
      max w10State.maxCandles (700 * 2) ∧
    (processLiveCandle "ETH" w10Tick 9 w10State).1.candles.lookup ("ETH", "1m") =
      some (dfTail w10State.maxCandles ([w10C] ++ [tickCandle 9 w10Tick])) := by
  have h := rolling_cap_store_wide w10Fetch w10Find "BTC" ["1m"] 700 w10State
  exact ⟨h.1, h.2.1 (by decide), h.2.2.2.2 "ETH" w10Tick 9 [w10C] (by decide)⟩

end CryptoAutoTrader
